import Mathlib

/-!
Verification of the Ableton VST Audit tool (`ableton_vst_audit.py`).

The development shallowly embeds the scanning core of the tool:
string heuristics (`extract_manufacturer_from_path`,
`get_manufacturer_from_plugin_name`), the per-file XML walk of
`parse_als_file`, the batch aggregation of `scan_directory`, and the
report rendering of `generate_report`.

All string operations are implemented over `List Char` so that every
definition evaluates inside the kernel.  Python's `str.lower` is
modelled on the ASCII range (the only range the tool's data uses),
`str.strip` strips the ASCII whitespace characters, and
`os.path.basename` takes the part after the last path separator
(either style), matching the Windows-style paths the tool targets.
-/

/-- Lowercase one character (ASCII model of Python `str.lower`). -/
def lowerCh (c : Char) : Char :=
  if 65 ≤ c.toNat ∧ c.toNat ≤ 90 then Char.ofNat (c.toNat + 32) else c

/-- Python `s.lower()` on the ASCII range. -/
def toLowerS (s : String) : String := String.mk (s.data.map lowerCh)

/-- Does the second list occur at the head of the first? -/
def startsWithCh : List Char → List Char → Bool
  | [], _ => true
  | _ :: _, [] => false
  | p :: ps, h :: hs => (p == h) && startsWithCh ps hs

/-- Does `pat` occur somewhere inside `hay` (Python `pat in hay`)? -/
def containsCh : List Char → List Char → Bool
  | [], pat => pat.isEmpty
  | h :: t, pat => startsWithCh pat (h :: t) || containsCh t pat

/-- Python `pat in hay` for strings. -/
def containsS (hay pat : String) : Bool := containsCh hay.data pat.data

/-- Python `s.endswith(pat)`. -/
def endsWithS (s pat : String) : Bool := startsWithCh pat.data.reverse s.data.reverse

/-- Fuelled worker for `replaceS`; the fuel is the length of the text,
which bounds the number of steps. -/
def replaceChAux (pat rep : List Char) : Nat → List Char → List Char
  | 0, l => l
  | _ + 1, [] => []
  | f + 1, c :: t =>
    if pat ≠ [] ∧ startsWithCh pat (c :: t) = true then
      rep ++ replaceChAux pat rep f (t.drop (pat.length - 1))
    else c :: replaceChAux pat rep f t

/-- Python `s.replace(pat, rep)`: non-overlapping left-to-right replacement. -/
def replaceS (s pat rep : String) : String :=
  String.mk (replaceChAux pat.data rep.data s.data.length s.data)

/-- ASCII whitespace as recognised by Python `str.strip`. -/
def isSpaceCh (c : Char) : Bool :=
  c.toNat = 32 ∨ c.toNat = 9 ∨ c.toNat = 10 ∨ c.toNat = 13 ∨ c.toNat = 11 ∨ c.toNat = 12

/-- Python `s.strip()`. -/
def trimS (s : String) : String :=
  String.mk (((s.data.dropWhile isSpaceCh).reverse.dropWhile isSpaceCh).reverse)

/-- Python `len(s)` (a character count). -/
def strLen (s : String) : Nat := s.data.length

/-- Split a character list on a separator character; Python `s.split(sep)`. -/
def splitCh (sep : Char) : List Char → List (List Char)
  | [] => [[]]
  | c :: t =>
    let r := splitCh sep t
    if c == sep then [] :: r
    else
      match r with
      | [] => [[c]]
      | h :: rt => (c :: h) :: rt

/-- Python `s.split(sep)` for strings. -/
def splitS (s : String) (sep : Char) : List String := (splitCh sep s.data).map String.mk

/-- Worker for `basenameS`: keep the segment after the last separator. -/
def basenameCh (acc : List Char) : List Char → List Char
  | [] => acc.reverse
  | c :: t => if c == '/' || c == '\\' then basenameCh [] t else basenameCh (c :: acc) t

/-- Python `os.path.basename` for the separator conventions this tool sees. -/
def basenameS (p : String) : String := String.mk (basenameCh [] p.data)

/-- Code-point lexicographic strict order on character lists, as Python
compares strings. -/
def ltChars : List Char → List Char → Bool
  | [], [] => false
  | [], _ :: _ => true
  | _ :: _, [] => false
  | a :: as, b :: bs =>
    if a.toNat < b.toNat then true
    else if b.toNat < a.toNat then false
    else ltChars as bs

/-- Python `a < b` on strings. -/
def ltS (a b : String) : Bool := ltChars a.data b.data

/-- Digits of a natural number, most significant first (fuelled). -/
def natDigits : Nat → Nat → List Char
  | 0, _ => []
  | f + 1, n =>
    if n < 10 then [Char.ofNat (48 + n)]
    else natDigits f (n / 10) ++ [Char.ofNat (48 + n % 10)]

/-- Decimal rendering of a natural number, as Python `str(n)`. -/
def natToStr (n : Nat) : String := String.mk (natDigits (n + 1) n)

/-- Python format `{s:<w}`: pad on the right with spaces to width `w`. -/
def padRightS (s : String) (w : Nat) : String :=
  String.mk (s.data ++ List.replicate (w - s.data.length) ' ')

/-- Python format `{s:>w}` / `{n:wd}`: pad on the left with spaces. -/
def padLeftS (s : String) (w : Nat) : String :=
  String.mk (List.replicate (w - s.data.length) ' ' ++ s.data)

/-- Python `c * n` for a single character, as in `"=" * 50`. -/
def repeatCh (c : Char) (n : Nat) : String := String.mk (List.replicate n c)

/-- Concatenation of a list of strings. -/
def concatS (l : List String) : String := l.foldl (fun acc s => acc ++ s) ""

/-- A Python `dict` from strings to strings, in insertion order. -/
abbrev SMap := List (String × String)

/-- Python `d.get(k)` on an `SMap`. -/
def smapFind (m : SMap) (k : String) : Option String :=
  match m with
  | [] => none
  | (a, b) :: t => if a == k then some b else smapFind t k

/-- Python `d[k] = v` on an `SMap`: update in place, else append. -/
def smapSet (m : SMap) (k v : String) : SMap :=
  match m with
  | [] => [(k, v)]
  | (a, b) :: t => if a == k then (a, v) :: t else (a, b) :: smapSet t k v

/-- Python `k in d` on an `SMap`. -/
def smapHas (m : SMap) (k : String) : Bool := (smapFind m k).isSome

/-- A Python `collections.Counter` over strings, in insertion order. -/
abbrev CMap := List (String × Nat)

/-- Counter lookup: a missing key counts as `0`. -/
def cmapGet (m : CMap) (k : String) : Nat :=
  match m with
  | [] => 0
  | (a, n) :: t => if a == k then n else cmapGet t k

/-- Python `counter[k] += 1`. -/
def cmapBump (m : CMap) (k : String) : CMap :=
  match m with
  | [] => [(k, 1)]
  | (a, n) :: t => if a == k then (a, n + 1) :: t else (a, n) :: cmapBump t k

/-- The project registry: a `dict` from project path to plugin list. -/
abbrev RMap := List (String × List String)

/-- Python `d[k] = v` on an `RMap`. -/
def rmapSet (m : RMap) (k : String) (v : List String) : RMap :=
  match m with
  | [] => [(k, v)]
  | (a, b) :: t => if a == k then (a, v) :: t else (a, b) :: rmapSet t k v

/-- The `skip_folders` stoplist of `extract_manufacturer_from_path`. -/
def skip_folders : List String :=
  ["vst", "vst2", "vst3", "_effects", "_effects 2", "effects", "mastering",
   "reverb", "distortion", "slowmo", "delay", "compression", "eq", "modulation",
   "d:", "c:", "program files", "program files (x86)", "x64", "x86", "plugins",
   "steinberg", "vstplugins", "64-bit", "32-bit"]

/-- The qualification test of the backward folder scan:
`folder and folder.lower() not in skip_folders and len(folder) > 2`. -/
def folderQualifies (folder : String) : Bool :=
  folder != "" && !(skip_folders.contains (toLowerS folder)) && decide (2 < strLen folder)

/-- The inner `for j in range(i-1, -1, -1)` loop: scan the segments before
the DLL segment, nearest first, returning the first stripped segment that
qualifies. -/
def scanBackFolders : List String → Option String
  | [] => none
  | seg :: t =>
    let folder := trimS seg
    if folderQualifies folder then some folder else scanBackFolders t

/-- The outer loop of `extract_manufacturer_from_path`: find the first
segment ending (case-insensitively) in `.dll`; `acc` holds the segments
already passed, nearest first. -/
def findDllScan (acc : List String) : List String → Option String
  | [] => none
  | seg :: rest =>
    if endsWithS (toLowerS seg) ".dll" then scanBackFolders acc
    else findDllScan (seg :: acc) rest

/-- `AbletonVSTAuditor.extract_manufacturer_from_path` (Rule A). -/
def extract_manufacturer_from_path (dll_path : String) : Option String :=
  if dll_path == "" then none
  else findDllScan [] (splitS (replaceS dll_path "\\" "/") '/')

/-- The ordered `manufacturer_patterns` table of
`get_manufacturer_from_plugin_name`. -/
def manufacturer_patterns : List (String × String) :=
  [("tal-", "TAL-Software"),
   ("labs", "Spitfire Audio"),
   ("ozone", "iZotope"),
   ("levels", "Mastering the Mix"),
   ("rc-20", "XLN Audio"),
   ("halftime", "Cable Guys"),
   ("blackhole", "Eventide"),
   ("decapitator", "Soundtoys"),
   ("waveshell", "Waves"),
   ("2getheraudio", "2getheraudio"),
   ("cherry", "Cherry Audio")]

/-- The `for pattern, manufacturer in manufacturer_patterns.items()` loop. -/
def patternLookup : List (String × String) → String → Option String
  | [], _ => none
  | (pat, man) :: t, pl => if containsS pl pat then some man else patternLookup t pl

/-- `AbletonVSTAuditor.get_manufacturer_from_plugin_name` (Rule B). -/
def get_manufacturer_from_plugin_name (plugin_name : String) : Option String :=
  if plugin_name == "" then none
  else patternLookup manufacturer_patterns (toLowerS plugin_name)

/-- An XML element as `xml.etree.ElementTree` presents it: tag, attributes
in document order, text content, children in document order. -/
structure XmlElem where
  tag : String
  attrib : List (String × String)
  text : Option String
  children : List XmlElem

mutual
/-- `root.iter()`: the element followed by its descendants, document order. -/
def preorder : XmlElem → List XmlElem
  | XmlElem.mk t a x cs => XmlElem.mk t a x cs :: preorderL cs

/-- Preorder traversal of a forest of elements. -/
def preorderL : List XmlElem → List XmlElem
  | [] => []
  | c :: cs => preorder c ++ preorderL cs
end

/-- The file-local state of the `parse_als_file` tree walk. -/
structure ParseState where
  vsts_found : List String
  local_manufacturers : SMap

/-- Record one DLL reference found in text or in an attribute value:
append its basename if new, then record a path-derived manufacturer if the
reference has no file-local manufacturer yet. -/
def addDllRef (raw : String) (st : ParseState) : ParseState :=
  let dll_path := trimS raw
  let dll_name := basenameS dll_path
  if dll_name != "" && !(st.vsts_found.contains dll_name) then
    let found := st.vsts_found ++ [dll_name]
    match extract_manufacturer_from_path dll_path with
    | some m =>
      if m != "" && !(smapHas st.local_manufacturers dll_name) then
        ⟨found, smapSet st.local_manufacturers dll_name m⟩
      else ⟨found, st.local_manufacturers⟩
    | none => ⟨found, st.local_manufacturers⟩
  else st

/-- The `elem.text` phase of the walk. -/
def textStep (e : XmlElem) (st : ParseState) : ParseState :=
  match e.text with
  | some s => if s != "" && containsS (toLowerS s) ".dll" then addDllRef s st else st
  | none => st

/-- The `elem.attrib.items()` phase of the walk. -/
def attrStep (e : XmlElem) (st : ParseState) : ParseState :=
  e.attrib.foldl
    (fun s kv =>
      if kv.2 != "" && containsS (toLowerS kv.2) ".dll" then addDllRef kv.2 s else s)
    st

/-- The substring match of the browser-path phase:
`plugin_name.lower() in vst.lower() or vst.lower() in plugin_name.lower()`. -/
def browserNameMatch (plugin_name vst : String) : Bool :=
  containsS (toLowerS vst) (toLowerS plugin_name) ||
  containsS (toLowerS plugin_name) (toLowerS vst)

/-- The `for vst in vsts_found` loop of the browser-path phase: overwrite
the file-local manufacturer of every matching reference. -/
def browserApply (manufacturer plugin_name : String) (st : ParseState) : ParseState :=
  ⟨st.vsts_found,
   st.vsts_found.foldl
     (fun m vst => if browserNameMatch plugin_name vst then smapSet m vst manufacturer else m)
     st.local_manufacturers⟩

/-- The `BrowserContentPath` phase of the walk. -/
def browserStep (e : XmlElem) (st : ParseState) : ParseState :=
  if e.tag == "BrowserContentPath" then
    match e.children.find? (fun c => c.tag == "Value") with
    | some v =>
      match v.text with
      | some bp =>
        if bp != "" && containsS bp "Plugins#VST" && containsS bp ":" then
          let parts := splitS bp ':'
          if 4 ≤ parts.length then
            browserApply (replaceS (parts.getD 2 "") "%20" " ")
              (replaceS (parts.getD 3 "") "%20" " ") st
          else st
        else st
      | none => st
    | none => st
  else st

/-- Record a plugin name taken from a `Name` attribute. -/
def addNameRef (name : String) (st : ParseState) : ParseState :=
  if name != "" && !(st.vsts_found.contains name) && !(endsWithS name ".dll") then
    ⟨st.vsts_found ++ [name], st.local_manufacturers⟩
  else st

/-- Record a plugin name taken from a child's text content. -/
def addChildText (o : Option String) (st : ParseState) : ParseState :=
  match o with
  | none => st
  | some s =>
    if s != "" && !(endsWithS s ".dll") && decide (strLen s < 100) then
      let plugin_name := trimS s
      if plugin_name != "" && !(st.vsts_found.contains plugin_name) then
        ⟨st.vsts_found ++ [plugin_name], st.local_manufacturers⟩
      else st
    else st

/-- The `VstPluginInfo` / `Vst3PluginInfo` / `PluginDesc` phase of the walk. -/
def pluginInfoStep (e : XmlElem) (st : ParseState) : ParseState :=
  if e.tag == "VstPluginInfo" || e.tag == "Vst3PluginInfo" || e.tag == "PluginDesc" then
    let st1 :=
      match smapFind e.attrib "Name" with
      | some name => addNameRef name st
      | none => st
    e.children.foldl (fun s c => addChildText c.text s) st1
  else st

/-- One iteration of the `for elem in root.iter()` loop, in source order:
text, attributes, browser path, plugin-descriptor handling. -/
def stepElem (st : ParseState) (e : XmlElem) : ParseState :=
  pluginInfoStep e (browserStep e (attrStep e (textStep e st)))

/-- Worker for `dedupFirst`, carrying the values already kept. -/
def dedupFirstAux (seen : List String) : List String → List String
  | [] => []
  | x :: t =>
    if seen.contains x then dedupFirstAux seen t
    else x :: dedupFirstAux (x :: seen) t

/-- Python `list(set(l))`: the distinct values of `l` (the Python order is
unspecified; this model keeps first occurrences). -/
def dedupFirst (l : List String) : List String := dedupFirstAux [] l

/-- The mutable scan-session state of an `AbletonVSTAuditor` instance. -/
structure Auditor where
  vst_usage : CMap
  project_vsts : RMap
  vst_manufacturers : SMap
  processed_files : Nat
  total_files : Nat

/-- Python `a or b` over optional strings, with `""` and `None` falsy. -/
def pyOrS (a b : Option String) : Option String :=
  match a with
  | some s => if s ≠ "" then some s else b
  | none => b

/-- The fallback chain committed per reference:
`local_manufacturers.get(vst) or get_manufacturer_from_plugin_name(vst) or "Unknown"`. -/
def resolveManufacturer (localM : SMap) (vst : String) : String :=
  (pyOrS (pyOrS (smapFind localM vst) (get_manufacturer_from_plugin_name vst))
    (some "Unknown")).getD "Unknown"

/-- The commit loop of `parse_als_file`: for each discovered reference not
yet in the global mapping, commit the resolved manufacturer. -/
def commitManufacturers (vsts : List String) (localM : SMap) (globalM : SMap) : SMap :=
  vsts.foldl
    (fun g vst => if smapHas g vst then g else smapSet g vst (resolveManufacturer localM vst))
    globalM

/-- `AbletonVSTAuditor.parse_als_file`.  The file content is `some root`
when gzip decompression and XML parsing succeed, `none` when they raise:
the `except` clause then leaves the session state untouched and the call
returns an empty list. -/
def parse_als_file (a : Auditor) (content : Option XmlElem) : Auditor × List String :=
  match content with
  | none => (a, [])
  | some root =>
    let st := (preorder root).foldl stepElem ⟨[], []⟩
    ({ a with
        vst_manufacturers :=
          commitManufacturers st.vsts_found st.local_manufacturers a.vst_manufacturers },
     dedupFirst st.vsts_found)

/-- The per-file list `parse_als_file` returns, which depends only on the
file content. -/
def parseVsts (content : Option XmlElem) : List String :=
  match content with
  | none => []
  | some root => dedupFirst ((preorder root).foldl stepElem ⟨[], []⟩).vsts_found

/-- The body of the `for file_path in als_files` loop of `scan_directory`:
parse one file, register its plugin list when non-empty, bump the usage
counter once per listed plugin, and count the file as processed. -/
def processFile (a : Auditor) (file : String × Option XmlElem) : Auditor :=
  let res := parse_als_file a file.2
  let a2 :=
    if res.2 ≠ [] then
      { res.1 with
          project_vsts := rmapSet res.1.project_vsts file.1 res.2,
          vst_usage := res.2.foldl cmapBump res.1.vst_usage }
    else res.1
  { a2 with processed_files := a2.processed_files + 1 }

/-- `AbletonVSTAuditor.scan_directory`.  The directory is abstracted to the
list of `.als` files `find_als_files` returns, each paired with its parsed
content (`none` for a file whose decompression or XML parse fails). -/
def scan_directory (a : Auditor) (als_files : List (String × Option XmlElem)) : Auditor :=
  let a1 : Auditor :=
    { a with
        vst_usage := [],
        project_vsts := [],
        processed_files := 0,
        total_files := als_files.length }
  if als_files.isEmpty then a1
  else als_files.foldl processFile a1

/-- `self.vst_manufacturers.get(vst, "Unknown")`. -/
def manOf (a : Auditor) (vst : String) : String :=
  (smapFind a.vst_manufacturers vst).getD "Unknown"

/-- Insert into a count-descending list, after every entry whose count is
at least as large; folding this over the counter items reproduces
`Counter.most_common()` (stable descending sort). -/
def insertDesc (x : String × Nat) : CMap → CMap
  | [] => [x]
  | y :: t => if x.2 ≤ y.2 then y :: insertDesc x t else x :: y :: t

/-- `Counter.most_common()`: items sorted by count descending, ties in
insertion order. -/
def mostCommon (u : CMap) : CMap := u.foldl (fun acc x => insertDesc x acc) []

/-- Insert into a list sorted ascending by a string key, after every entry
with a smaller key; folding this reproduces Python stable `sorted`. -/
def insertAscBy {α : Type} (key : α → String) (x : α) : List α → List α
  | [] => [x]
  | y :: t => if ltS (key y) (key x) then y :: insertAscBy key x t else x :: y :: t

/-- Python `sorted(l, key=key)` for a string key. -/
def sortByKey {α : Type} (key : α → String) (l : List α) : List α :=
  l.foldl (fun acc x => insertAscBy key x acc) []

/-- Python `sorted(l)` over strings. -/
def sortStrings (l : List String) : List String := sortByKey (fun s => s) l

/-- Append an item to a manufacturer's group (`defaultdict(list)` append). -/
def groupAdd (g : List (String × List (String × Nat))) (man : String)
    (item : String × Nat) : List (String × List (String × Nat)) :=
  match g with
  | [] => [(man, [item])]
  | (m, items) :: t =>
    if m == man then (m, items ++ [item]) :: t else (m, items) :: groupAdd t man item

/-- The `by_manufacturer` grouping built inside `generate_report`. -/
def byManufacturer (a : Auditor) : List (String × List (String × Nat)) :=
  a.vst_usage.foldl
    (fun g kv => groupAdd g (manOf a kv.1) (kv.1, cmapGet a.vst_usage kv.1)) []

/-- `by_manufacturer[manufacturer]` lookup. -/
def lookupGroup (g : List (String × List (String × Nat))) (man : String) :
    List (String × Nat) :=
  match g with
  | [] => []
  | (m, items) :: t => if m == man then items else lookupGroup t man

/-- The header block `generate_report` always writes: title, rule,
timestamp, and the two totals. -/
def reportHeader (a : Auditor) (ts : String) : String :=
  "ABLETON VST AUDIT REPORT\n" ++ repeatCh '=' 50 ++ "\n" ++
  "Generated: " ++ ts ++ "\n" ++
  "Total Projects Scanned: " ++ natToStr a.project_vsts.length ++ "\n" ++
  "Total Unique VSTs Found: " ++ natToStr a.vst_usage.length ++ "\n\n"

/-- One line of the frequency-ranked usage summary. -/
def usageLine (a : Auditor) (kv : String × Nat) : String :=
  padLeftS (natToStr kv.2) 3 ++ "x  " ++ padRightS kv.1 35 ++ " [" ++ manOf a kv.1 ++ "]\n"

/-- The `VST USAGE SUMMARY (by frequency)` section. -/
def usageSummarySection (a : Auditor) : String :=
  "VST USAGE SUMMARY (by frequency)\n" ++ repeatCh '-' 40 ++ "\n" ++
  concatS ((mostCommon a.vst_usage).map (usageLine a))

/-- The `VSTS BY MANUFACTURER` section. -/
def byManSection (a : Auditor) : String :=
  "\n\nVSTS BY MANUFACTURER\n" ++ repeatCh '-' 30 ++ "\n" ++
  concatS ((sortStrings ((byManufacturer a).map Prod.fst)).map (fun man =>
    "\n" ++ man ++ ":\n" ++
    concatS ((sortByKey Prod.fst (lookupGroup (byManufacturer a) man)).map (fun it =>
      "  • " ++ it.1 ++ " (" ++ natToStr it.2 ++ "x)\n"))))

/-- The `ALPHABETICAL VST LIST` section. -/
def alphaSection (a : Auditor) : String :=
  "\n\nALPHABETICAL VST LIST\n" ++ repeatCh '-' 30 ++ "\n" ++
  concatS ((sortStrings (a.vst_usage.map Prod.fst)).map (fun vst =>
    "• " ++ padRightS vst 35 ++ " [" ++ manOf a vst ++ "]\n"))

/-- The `PROJECT BREAKDOWN` section. -/
def projectSection (a : Auditor) : String :=
  "\n\nPROJECT BREAKDOWN\n" ++ repeatCh '-' 25 ++ "\n" ++
  concatS (a.project_vsts.map (fun pv =>
    "\n" ++ basenameS pv.1 ++ ":\n" ++
    concatS ((sortStrings (dedupFirst pv.2)).map (fun vst =>
      "  • " ++ padRightS vst 35 ++ " [" ++ manOf a vst ++ "]\n"))))

/-- The four sections written when the usage counter is non-empty. -/
def reportBody (a : Auditor) : String :=
  usageSummarySection a ++ byManSection a ++ alphaSection a ++ projectSection a

/-- The line written when the usage counter is empty. -/
def noPluginsLine : String := "No VST plugins found in the scanned projects.\n"

/-- `AbletonVSTAuditor.generate_report`, as the pure text it writes; the
wall-clock timestamp string is a parameter. -/
def generate_report (a : Auditor) (ts : String) : String :=
  reportHeader a ts ++ (if a.vst_usage.isEmpty then noPluginsLine else reportBody a)

/-- Locate the first segment ending case-insensitively in `.dll` and
return the segments before it, in path order (spec wording of Rule A). -/
def segmentsBeforeDll : List String → Option (List String)
  | [] => none
  | seg :: rest =>
    if endsWithS (toLowerS seg) ".dll" then some []
    else (segmentsBeforeDll rest).map (fun pre => seg :: pre)

/-- Rule A as the specification words it: split the path on both
separator styles, locate the segment ending case-insensitively in `.dll`,
scan backward through the preceding segments, and return the first
stripped segment that is non-empty, longer than 2 characters, and not a
case-insensitive member of the stoplist, else no match. -/
def ruleA_spec (path : String) : Option String :=
  if path == "" then none
  else
    match segmentsBeforeDll (splitS (replaceS path "\\" "/") '/') with
    | none => none
    | some pre => (pre.reverse.map trimS).find? folderQualifies

/-- Rule B as the specification words it: lowercase the input and return
the vendor of the first pattern in table order contained in it, else no
match. -/
def ruleB_spec (name : String) : Option String :=
  if name == "" then none
  else
    (manufacturer_patterns.find? (fun pm => containsS (toLowerS name) pm.1)).map
      (fun pm => pm.2)

/-! Concrete fixtures used by the witness instances below. -/

/-- A fresh auditor, as `AbletonVSTAuditor.__init__` builds it. -/
def auditor0 : Auditor := ⟨[], [], [], 0, 0⟩

/-- An auditor carrying state from an earlier scan session. -/
def auditorX : Auditor :=
  ⟨[("Old.dll", 3)], [("old.als", ["Old.dll"])], [("Plugin.dll", "CompanyX")], 5, 5⟩

/-- A project file referencing the same DLL on three elements (twice as
text, once as an attribute). -/
def tree1 : XmlElem :=
  XmlElem.mk "Ableton" [] none
    [XmlElem.mk "Track1" [] (some "C:/SomeVendor/vst/Plugin.dll") [],
     XmlElem.mk "Track2" [] (some "C:/SomeVendor/vst/Plugin.dll") [],
     XmlElem.mk "Track3" [("Path", "C:/SomeVendor/vst/Plugin.dll")] none []]

/-- A project file whose browser-path entry corrects the path heuristic. -/
def treeBrowser : XmlElem :=
  XmlElem.mk "Ableton" [] none
    [XmlElem.mk "T" [] (some "D:/Heur/vst/MyPlug.dll") [],
     XmlElem.mk "BrowserContentPath" [] none
       [XmlElem.mk "Value" [] (some "query:Plugins#VST:Some%20Vendor:MyPlug") []]]

/-- A batch with one well-formed and one corrupt file. -/
def alsFiles1 : List (String × Option XmlElem) :=
  [("proj.als", some tree1), ("bad.als", none)]

/-! Lemmas about the map primitives. -/

lemma smapFind_set_self (m : SMap) (k v : String) : smapFind (smapSet m k v) k = some v := by
  induction m with
  | nil => simp [smapSet, smapFind]
  | cons hd t ih =>
    obtain ⟨a, b⟩ := hd
    by_cases h : a = k <;> simp [smapSet, smapFind, h, ih]

lemma smapFind_set_ne (m : SMap) (k v j : String) (h : k ≠ j) :
    smapFind (smapSet m k v) j = smapFind m j := by
  induction m with
  | nil => simp [smapSet, smapFind, h]
  | cons hd t ih =>
    obtain ⟨a, b⟩ := hd
    by_cases hak : a = k
    · simp [smapSet, smapFind, hak, h]
    · by_cases haj : a = j <;> simp [smapSet, smapFind, hak, haj, ih, Ne.symm h]

lemma cmapGet_bump_self (m : CMap) (k : String) :
    cmapGet (cmapBump m k) k = cmapGet m k + 1 := by
  induction m with
  | nil => simp [cmapBump, cmapGet]
  | cons hd t ih =>
    obtain ⟨a, n⟩ := hd
    by_cases h : a = k <;> simp [cmapBump, cmapGet, h, ih]

lemma cmapGet_bump_ne (m : CMap) (k p : String) (h : p ≠ k) :
    cmapGet (cmapBump m k) p = cmapGet m p := by
  induction m with
  | nil => simp [cmapBump, cmapGet, Ne.symm h]
  | cons hd t ih =>
    obtain ⟨a, n⟩ := hd
    by_cases hak : a = k
    · simp [cmapBump, cmapGet, hak, Ne.symm h]
    · by_cases hap : a = p <;> simp [cmapBump, cmapGet, hak, hap, ih, h]

lemma cmapGet_foldl_bump (l : List String) (m : CMap) (p : String) :
    cmapGet (l.foldl cmapBump m) p = cmapGet m p + l.count p := by
  induction l generalizing m with
  | nil => simp
  | cons x t ih =>
    by_cases h : p = x
    · subst h
      simp [List.foldl_cons, ih, cmapGet_bump_self, List.count_cons]
      omega
    · simp [List.foldl_cons, ih, cmapGet_bump_ne m x p h, List.count_cons, h]

/-! Lemmas about per-file deduplication. -/

lemma dedupFirstAux_not_seen (l : List String) :
    ∀ (seen : List String) (x : String), x ∈ dedupFirstAux seen l → x ∉ seen := by
  induction l with
  | nil => intro seen x hx; cases hx
  | cons y t ih =>
    intro seen x hx
    by_cases hy : seen.contains y
    · rw [dedupFirstAux, if_pos hy] at hx
      exact ih seen x hx
    · rw [dedupFirstAux, if_neg hy] at hx
      rw [List.mem_cons] at hx
      rcases hx with rfl | hx
      · intro hc
        exact hy (List.elem_eq_true_of_mem hc)
      · intro hc
        exact ih (y :: seen) x hx (List.mem_cons_of_mem y hc)

lemma dedupFirstAux_nodup (l : List String) : ∀ seen : List String, (dedupFirstAux seen l).Nodup := by
  induction l with
  | nil => intro seen; simp [dedupFirstAux]
  | cons y t ih =>
    intro seen
    by_cases hy : seen.contains y
    · rw [dedupFirstAux, if_pos hy]
      exact ih seen
    · rw [dedupFirstAux, if_neg hy]
      refine List.nodup_cons.mpr ⟨?_, ih (y :: seen)⟩
      intro hmem
      exact dedupFirstAux_not_seen t (y :: seen) y hmem (List.mem_cons_self y seen)

lemma dedupFirst_nodup (l : List String) : (dedupFirst l).Nodup :=
  dedupFirstAux_nodup l []

lemma parseVsts_nodup (c : Option XmlElem) : (parseVsts c).Nodup := by
  cases c with
  | none => simp [parseVsts]
  | some root => exact dedupFirst_nodup _

/-! Component lemmas for `parse_als_file` and `processFile`. -/

lemma parse_snd (a : Auditor) (c : Option XmlElem) :
    (parse_als_file a c).2 = parseVsts c := by
  cases c <;> rfl

lemma parse_fst_usage (a : Auditor) (c : Option XmlElem) :
    (parse_als_file a c).1.vst_usage = a.vst_usage := by
  cases c <;> rfl

lemma parse_fst_registry (a : Auditor) (c : Option XmlElem) :
    (parse_als_file a c).1.project_vsts = a.project_vsts := by
  cases c <;> rfl

lemma processFile_usage (a : Auditor) (f : String × Option XmlElem) :
    (processFile a f).vst_usage =
      if parseVsts f.2 = [] then a.vst_usage
      else (parseVsts f.2).foldl cmapBump a.vst_usage := by
  by_cases h : parseVsts f.2 = [] <;>
    simp [processFile, parse_snd, parse_fst_usage, h]

lemma processFile_registry (a : Auditor) (f : String × Option XmlElem) :
    (processFile a f).project_vsts =
      if parseVsts f.2 = [] then a.project_vsts
      else rmapSet a.project_vsts f.1 (parseVsts f.2) := by
  by_cases h : parseVsts f.2 = [] <;>
    simp [processFile, parse_snd, parse_fst_registry, h]

lemma processFile_manu (a : Auditor) (f : String × Option XmlElem) :
    (processFile a f).vst_manufacturers = (parse_als_file a f.2).1.vst_manufacturers := by
  by_cases h : parseVsts f.2 = [] <;>
    simp [processFile, parse_snd, h]

lemma scan_eq_fold (a : Auditor) (files : List (String × Option XmlElem)) :
    scan_directory a files =
      files.foldl processFile
        { a with
            vst_usage := [], project_vsts := [], processed_files := 0,
            total_files := files.length } := by
  cases files <;> rfl

/-! First-writer-wins for the global manufacturer mapping. -/

lemma commit_preserves (vsts : List String) (localM g : SMap) (k v : String)
    (h : smapFind g k = some v) :
    smapFind (commitManufacturers vsts localM g) k = some v := by
  unfold commitManufacturers
  induction vsts generalizing g with
  | nil => exact h
  | cons x t ih =>
    rw [List.foldl_cons]
    by_cases hx : smapHas g x = true
    · rw [if_pos hx]
      exact ih g h
    · rw [if_neg hx]
      refine ih _ ?_
      have hkx : k ≠ x := by
        intro he
        subst he
        simp [smapHas, h] at hx
      rw [smapFind_set_ne g x _ k (fun he => hkx he.symm)]
      exact h

lemma parse_preserves_manu (a : Auditor) (c : Option XmlElem) (k v : String)
    (h : smapFind a.vst_manufacturers k = some v) :
    smapFind (parse_als_file a c).1.vst_manufacturers k = some v := by
  cases c with
  | none => exact h
  | some root => exact commit_preserves _ _ _ k v h

lemma foldl_preserves_manu (files : List (String × Option XmlElem)) (a : Auditor)
    (k v : String) (h : smapFind a.vst_manufacturers k = some v) :
    smapFind (files.foldl processFile a).vst_manufacturers k = some v := by
  induction files generalizing a with
  | nil => exact h
  | cons f t ih =>
    rw [List.foldl_cons]
    refine ih (processFile a f) ?_
    rw [processFile_manu]
    exact parse_preserves_manu a f.2 k v h

/-- C2: the global Manufacturer Mapping is first-writer-wins: once
`parse_als_file` has committed a manufacturer value for a reference, no
later call on any other file (nor any batch of later files) changes that
value, because the commit loop writes only to keys not already present. -/
theorem manufacturer_first_writer_wins (a : Auditor) (c : Option XmlElem)
    (files : List (String × Option XmlElem)) (k v : String)
    (h : smapFind a.vst_manufacturers k = some v) :
    smapFind (parse_als_file a c).1.vst_manufacturers k = some v ∧
    smapFind (files.foldl processFile a).vst_manufacturers k = some v :=
  ⟨parse_preserves_manu a c k v h, foldl_preserves_manu files a k v h⟩

/-- Instantiation of `manufacturer_first_writer_wins`: a mapping committed
as `CompanyX` survives a later file that carries conflicting evidence. -/
theorem manufacturer_first_writer_wins_instance :
    smapFind auditorX.vst_manufacturers "Plugin.dll" = some "CompanyX" ∧
    smapFind (parse_als_file auditorX (some treeBrowser)).1.vst_manufacturers "Plugin.dll" =
      some "CompanyX" ∧
    smapFind ([(("p.als" : String), some treeBrowser)].foldl processFile
        auditorX).vst_manufacturers "Plugin.dll" = some "CompanyX" := by
  refine ⟨by decide, ?_, ?_⟩
  · exact (manufacturer_first_writer_wins auditorX (some treeBrowser) [] "Plugin.dll"
      "CompanyX" (by decide)).1
  · exact (manufacturer_first_writer_wins auditorX none
      [(("p.als" : String), some treeBrowser)] "Plugin.dll" "CompanyX" (by decide)).2

/-- C3 counterexample: from a prior state whose Manufacturer Mapping is
non-empty, scanning a directory with zero qualifying files leaves the
mapping non-empty, so `scan_directory` does not clear all four session
structures. -/
theorem scan_keeps_manufacturer_mapping_counterexample :
    (scan_directory auditorX []).vst_manufacturers = [("Plugin.dll", "CompanyX")] ∧
    (scan_directory auditorX []).vst_manufacturers ≠ [] := by
  exact ⟨by decide, by decide⟩

/-- C3 (amended): `scan_directory` clears the Usage Counter, the Project
Registry, and the processed-files counter at its start and sets the
total-files counter to the batch size, but it does not touch the
Manufacturer Mapping; a scan over zero qualifying files therefore leaves
the counter and registry empty and the mapping exactly as it was. -/
theorem scan_clear_behavior (a : Auditor) :
    (scan_directory a []).vst_usage = [] ∧
    (scan_directory a []).project_vsts = [] ∧
    (scan_directory a []).processed_files = 0 ∧
    (scan_directory a []).total_files = 0 ∧
    (scan_directory a []).vst_manufacturers = a.vst_manufacturers :=
  ⟨rfl, rfl, rfl, rfl, rfl⟩

/-- C1: processing one project file increments the Usage Counter entry of
each plugin reference found in it by exactly 1 and leaves every other
entry unchanged, regardless of how many times the reference occurs within
the file: the parser's returned list is duplicate-free and
`scan_directory` adds 1 per list element. -/
theorem per_file_usage_increment (a : Auditor) (path : String) (content : Option XmlElem) :
    (parse_als_file a content).2.Nodup ∧
    (∀ p ∈ (parse_als_file a content).2,
      cmapGet (processFile a (path, content)).vst_usage p = cmapGet a.vst_usage p + 1) ∧
    (∀ p : String, p ∉ (parse_als_file a content).2 →
      cmapGet (processFile a (path, content)).vst_usage p = cmapGet a.vst_usage p) := by
  refine ⟨?_, ?_, ?_⟩
  · rw [parse_snd]
    exact parseVsts_nodup content
  · intro p hp
    rw [parse_snd] at hp
    rw [processFile_usage]
    rw [if_neg (by intro he; rw [he] at hp; cases hp)]
    rw [cmapGet_foldl_bump]
    rw [List.count_eq_one_of_mem (parseVsts_nodup content) hp]
  · intro p hp
    rw [parse_snd] at hp
    rw [processFile_usage]
    by_cases he : parseVsts content = []
    · rw [if_pos he]
    · rw [if_neg he, cmapGet_foldl_bump, List.count_eq_zero.mpr hp]
      exact Nat.add_zero _

/-- Instantiation of `per_file_usage_increment` on a file referencing the
same plugin on three elements: the counter entry rises by 1, not 3. -/
theorem per_file_usage_increment_instance :
    "Plugin.dll" ∈ (parse_als_file auditor0 (some tree1)).2 ∧
    cmapGet (processFile auditor0 ("proj.als", some tree1)).vst_usage "Plugin.dll" =
      cmapGet auditor0.vst_usage "Plugin.dll" + 1 :=
  ⟨by decide,
   (per_file_usage_increment auditor0 "proj.als" (some tree1)).2.1 "Plugin.dll" (by decide)⟩

/-! Batch robustness: corrupt files contribute nothing. -/

lemma fold_filter_usage_registry (files : List (String × Option XmlElem)) :
    ∀ (a1 a2 : Auditor), a1.vst_usage = a2.vst_usage → a1.project_vsts = a2.project_vsts →
      (files.foldl processFile a1).vst_usage =
        ((files.filter (fun f => f.2.isSome)).foldl processFile a2).vst_usage ∧
      (files.foldl processFile a1).project_vsts =
        ((files.filter (fun f => f.2.isSome)).foldl processFile a2).project_vsts := by
  induction files with
  | nil => intro a1 a2 h1 h2; exact ⟨h1, h2⟩
  | cons f t ih =>
    intro a1 a2 h1 h2
    cases hc : f.2 with
    | none =>
      have hfil : (f :: t).filter (fun f => f.2.isSome) = t.filter (fun f => f.2.isSome) := by
        simp [List.filter_cons, hc]
      rw [hfil, List.foldl_cons]
      refine ih (processFile a1 f) a2 ?_ ?_
      · rw [processFile_usage]
        simp [parseVsts, hc, h1]
      · rw [processFile_registry]
        simp [parseVsts, hc, h2]
    | some root =>
      have hfil : (f :: t).filter (fun f => f.2.isSome) =
          f :: t.filter (fun f => f.2.isSome) := by
        simp [List.filter_cons, hc]
      rw [hfil, List.foldl_cons, List.foldl_cons]
      refine ih (processFile a1 f) (processFile a2 f) ?_ ?_
      · rw [processFile_usage, processFile_usage, h1]
      · rw [processFile_registry, processFile_registry, h2]

/-- C4: a per-file failure (bad gzip, malformed XML, I/O error) is caught
inside `parse_als_file` and makes the file contribute zero plugins without
aborting the batch: scanning a mix of corrupt and well-formed files yields
the same Usage Counter and Project Registry as scanning only the
well-formed files. -/
theorem scan_ignores_corrupt_files (a : Auditor) (files : List (String × Option XmlElem)) :
    (scan_directory a files).vst_usage =
      (scan_directory a (files.filter (fun f => f.2.isSome))).vst_usage ∧
    (scan_directory a files).project_vsts =
      (scan_directory a (files.filter (fun f => f.2.isSome))).project_vsts := by
  rw [scan_eq_fold, scan_eq_fold]
  exact fold_filter_usage_registry files _ _ rfl rfl

/-! Equivalence of Rule A with its specification description. -/

lemma scanBack_eq_find (l : List String) :
    scanBackFolders l = (l.map trimS).find? folderQualifies := by
  induction l with
  | nil => rfl
  | cons x t ih =>
    simp only [scanBackFolders, List.map_cons]
    by_cases h : folderQualifies (trimS x)
    · rw [if_pos h, List.find?_cons_of_pos _ h]
    · rw [if_neg h, List.find?_cons_of_neg _ h, ih]

lemma findDllScan_eq (parts : List String) : ∀ acc : List String,
    findDllScan acc parts =
      match segmentsBeforeDll parts with
      | none => none
      | some pre => scanBackFolders (pre.reverse ++ acc) := by
  induction parts with
  | nil => intro acc; rfl
  | cons seg rest ih =>
    intro acc
    by_cases h : endsWithS (toLowerS seg) ".dll"
    · simp only [findDllScan, segmentsBeforeDll, if_pos h]
      simp
    · simp only [findDllScan, segmentsBeforeDll, if_neg h]
      rw [ih (seg :: acc)]
      cases hsb : segmentsBeforeDll rest with
      | none => simp
      | some pre => simp [List.reverse_cons, List.append_assoc]

/-- C5: Rule A (`extract_manufacturer_from_path`) coincides with the
spec's description (`ruleA_spec`): split on both separator styles, locate
the segment ending case-insensitively in `.dll`, scan backward through
preceding segments, return the first stripped segment that is non-empty,
longer than 2 characters, and not a case-insensitive stoplist member, else
no match; in particular the spec's example path returns `SomeVendor`. -/
theorem ruleA_matches_spec :
    (∀ p : String, extract_manufacturer_from_path p = ruleA_spec p) ∧
    extract_manufacturer_from_path ".../SomeVendor/vst/reverb/Plugin.dll" =
      some "SomeVendor" := by
  constructor
  · intro p
    unfold extract_manufacturer_from_path ruleA_spec
    by_cases hp : p == ""
    · rw [if_pos hp, if_pos hp]
    · rw [if_neg hp, if_neg hp, findDllScan_eq]
      cases hsb : segmentsBeforeDll (splitS (replaceS p "\\" "/") '/') with
      | none => rfl
      | some pre => simp [scanBack_eq_find]
  · decide

/-! Equivalence of Rule B with its specification description. -/

lemma patternLookup_eq_find (tbl : List (String × String)) (pl : String) :
    patternLookup tbl pl =
      ((tbl.find? fun pm => containsS pl pm.1).map fun pm => pm.2) := by
  induction tbl with
  | nil => rfl
  | cons pm t ih =>
    obtain ⟨pat, man⟩ := pm
    by_cases h : containsS pl pat
    · simp [patternLookup, List.find?, h]
    · simp [patternLookup, List.find?, h, ih]

/-- C6: Rule B (`get_manufacturer_from_plugin_name`) coincides with the
spec's description (`ruleB_spec`): lowercase the input and return the
vendor of the first pattern in fixed table order contained in it, else no
match; in particular `TAL-Reverb-4` resolves to `TAL-Software` via the
`tal-` pattern. -/
theorem ruleB_matches_spec :
    (∀ s : String, get_manufacturer_from_plugin_name s = ruleB_spec s) ∧
    get_manufacturer_from_plugin_name "TAL-Reverb-4" = some "TAL-Software" := by
  constructor
  · intro s
    unfold get_manufacturer_from_plugin_name ruleB_spec
    by_cases hs : s == ""
    · rw [if_pos hs, if_pos hs]
    · rw [if_neg hs, if_neg hs, patternLookup_eq_find]
  · decide

/-! The browser-path override of the file-local manufacturer table. -/

lemma foldl_condSet_preserves (cond : String → Bool) (man : String) (l : List String) :
    ∀ (m : SMap) (vst : String), smapFind m vst = some man →
      smapFind (l.foldl (fun acc x => if cond x then smapSet acc x man else acc) m) vst =
        some man := by
  induction l with
  | nil => intro m vst h; exact h
  | cons x t ih =>
    intro m vst h
    rw [List.foldl_cons]
    by_cases hx : cond x
    · rw [if_pos hx]
      apply ih
      by_cases hxv : x = vst
      · subst hxv
        exact smapFind_set_self m x man
      · rw [smapFind_set_ne m x man vst hxv]
        exact h
    · rw [if_neg hx]
      exact ih m vst h

lemma foldl_condSet_mem (cond : String → Bool) (man : String) (l : List String) :
    ∀ (m : SMap) (vst : String), vst ∈ l → cond vst = true →
      smapFind (l.foldl (fun acc x => if cond x then smapSet acc x man else acc) m) vst =
        some man := by
  induction l with
  | nil => intro m vst h _; cases h
  | cons x t ih =>
    intro m vst hmem hcond
    rw [List.foldl_cons]
    rw [List.mem_cons] at hmem
    rcases hmem with rfl | hmem
    · rw [if_pos hcond]
      exact foldl_condSet_preserves cond man t _ vst (smapFind_set_self m vst man)
    · exact ih _ vst hmem hcond

/-- C7: on a `BrowserContentPath` element whose nested `Value` text
contains `Plugins#VST` and splits on `:` into at least 4 fields,
`parse_als_file` decodes `%20` in the manufacturer and plugin-name fields
and, for every reference already in `vsts_found` that matches the decoded
plugin name case-insensitively as a substring in either direction,
overwrites that reference's file-local manufacturer entry with the decoded
manufacturer, whatever value it held before. -/
theorem browser_path_override (e : XmlElem) (st : ParseState) (v : XmlElem) (bp : String)
    (htag : e.tag = "BrowserContentPath")
    (hfind : e.children.find? (fun c => c.tag == "Value") = some v)
    (htext : v.text = some bp)
    (hbp : bp ≠ "")
    (hvst : containsS bp "Plugins#VST" = true)
    (hcolon : containsS bp ":" = true)
    (hlen : 4 ≤ (splitS bp ':').length) :
    (browserStep e st).vsts_found = st.vsts_found ∧
    ∀ vst ∈ st.vsts_found,
      browserNameMatch (replaceS ((splitS bp ':').getD 3 "") "%20" " ") vst = true →
      smapFind (browserStep e st).local_manufacturers vst =
        some (replaceS ((splitS bp ':').getD 2 "") "%20" " ") := by
  have hred : browserStep e st =
      browserApply (replaceS ((splitS bp ':').getD 2 "") "%20" " ")
        (replaceS ((splitS bp ':').getD 3 "") "%20" " ") st := by
    unfold browserStep
    rw [htag]
    simp only [beq_self_eq_true, if_true, hfind, htext]
    rw [if_pos (by simp [bne_iff_ne, hbp, hvst, hcolon]), if_pos hlen]
  constructor
  · rw [hred]
    rfl
  · intro vst hmem hmatch
    rw [hred]
    exact foldl_condSet_mem
      (browserNameMatch (replaceS ((splitS bp ':').getD 3 "") "%20" " "))
      (replaceS ((splitS bp ':').getD 2 "") "%20" " ")
      st.vsts_found st.local_manufacturers vst hmem hmatch

/-- A bare `BrowserContentPath` element with a `Value` child. -/
def browserElem : XmlElem :=
  XmlElem.mk "BrowserContentPath" [] none
    [XmlElem.mk "Value" [] (some "query:Plugins#VST:Some%20Vendor:MyPlug") []]

/-- The `Value` child of `browserElem`. -/
def valueElem : XmlElem :=
  XmlElem.mk "Value" [] (some "query:Plugins#VST:Some%20Vendor:MyPlug") []

/-- A walk state in which the path heuristic already recorded a different
manufacturer for the discovered reference. -/
def stW : ParseState := ⟨["MyPlug.dll"], [("MyPlug.dll", "Heur")]⟩

/-- Instantiation of `browser_path_override`: the `%20`-decoded browser
manufacturer `Some Vendor` replaces the heuristic value `Heur`. -/
theorem browser_path_override_instance :
    replaceS ((splitS "query:Plugins#VST:Some%20Vendor:MyPlug" ':').getD 2 "") "%20" " " =
      "Some Vendor" ∧
    "MyPlug.dll" ∈ stW.vsts_found ∧
    smapFind (browserStep browserElem stW).local_manufacturers "MyPlug.dll" =
      some (replaceS ((splitS "query:Plugins#VST:Some%20Vendor:MyPlug" ':').getD 2 "")
        "%20" " ") :=
  ⟨by decide, by decide,
   (browser_path_override browserElem stW valueElem
      "query:Plugins#VST:Some%20Vendor:MyPlug" rfl rfl rfl (by decide) (by decide)
      (by decide) (by decide)).2 "MyPlug.dll" (by decide) (by decide)⟩

set_option maxRecDepth 8000 in
/-- C8 counterexample: with an empty Usage Counter the report is not the
single "no plugins found" line — `generate_report` writes the header
block (title, timestamp, totals) unconditionally before testing the
counter. -/
theorem report_empty_not_single_line :
    generate_report auditor0 "2025-06-01 12:00:00" ≠ noPluginsLine := by
  decide

/-- C8 (amended): when the Usage Counter is empty, `generate_report`
still writes the header section (timestamp and totals) and replaces the
remaining four sections with the single "no plugins found" line. -/
theorem report_header_always_written (a : Auditor) (ts : String)
    (h : a.vst_usage = []) :
    generate_report a ts = reportHeader a ts ++ noPluginsLine := by
  rw [generate_report, h]
  rfl

/-- Instantiation of `report_header_always_written` on a fresh auditor. -/
theorem report_header_always_written_instance :
    auditor0.vst_usage = [] ∧
    generate_report auditor0 "2026-02-03 04:05:06" =
      reportHeader auditor0 "2026-02-03 04:05:06" ++ noPluginsLine :=
  ⟨rfl, report_header_always_written auditor0 "2026-02-03 04:05:06" rfl⟩

/-! Registry entries are duplicate-free. -/

lemma rmapSet_mem (m : RMap) (k : String) (v : List String) (pr : String × List String)
    (h : pr ∈ rmapSet m k v) : pr ∈ m ∨ pr = (k, v) := by
  induction m with
  | nil =>
    right
    simpa [rmapSet] using h
  | cons hd t ih =>
    obtain ⟨a, b⟩ := hd
    by_cases hak : a = k
    · subst hak
      simp only [rmapSet, beq_self_eq_true, if_true] at h
      rw [List.mem_cons] at h
      rcases h with rfl | h
      · right
        rfl
      · left
        exact List.mem_cons_of_mem _ h
    · simp only [rmapSet] at h
      rw [if_neg (by simp [hak])] at h
      rw [List.mem_cons] at h
      rcases h with rfl | h
      · left
        exact List.mem_cons_self _ _
      · rcases ih h with hm | he
        · left
          exact List.mem_cons_of_mem _ hm
        · right
          exact he

lemma fold_registry_nodup (files : List (String × Option XmlElem)) :
    ∀ a : Auditor, (∀ pr ∈ a.project_vsts, pr.2.Nodup) →
      ∀ pr ∈ (files.foldl processFile a).project_vsts, pr.2.Nodup := by
  induction files with
  | nil => intro a hbase; exact hbase
  | cons f t ih =>
    intro a hbase
    rw [List.foldl_cons]
    refine ih (processFile a f) ?_
    intro pr hpr
    rw [processFile_registry] at hpr
    by_cases he : parseVsts f.2 = []
    · rw [if_pos he] at hpr
      exact hbase pr hpr
    · rw [if_neg he] at hpr
      rcases rmapSet_mem _ _ _ _ hpr with hm | hkv
      · exact hbase pr hm
      · rw [hkv]
        exact parseVsts_nodup f.2

/-- C9: every plugin list the main scan path stores into the Project
Registry is duplicate-free, because `parse_als_file` returns the
deduplicated list — registry consumers need not deduplicate again. -/
theorem registry_lists_nodup (a : Auditor) (files : List (String × Option XmlElem))
    (pr : String × List String) (h : pr ∈ (scan_directory a files).project_vsts) :
    pr.2.Nodup := by
  rw [scan_eq_fold] at h
  refine fold_registry_nodup files _ ?_ pr h
  intro pr hpr
  cases hpr

/-- Instantiation of `registry_lists_nodup` on a concrete scan. -/
theorem registry_lists_nodup_instance :
    ("proj.als", ["Plugin.dll"]) ∈ (scan_directory auditor0 alsFiles1).project_vsts ∧
    (("proj.als", ["Plugin.dll"]) : String × List String).2.Nodup :=
  ⟨by decide,
   registry_lists_nodup auditor0 alsFiles1 ("proj.als", ["Plugin.dll"]) (by decide)⟩

/-! Mutual consistency of the Usage Counter and the Project Registry. -/

lemma rmapSet_fresh (m : RMap) (k : String) (v : List String)
    (h : ∀ pr ∈ m, pr.1 ≠ k) : rmapSet m k v = m ++ [(k, v)] := by
  induction m with
  | nil => rfl
  | cons hd t ih =>
    obtain ⟨a, b⟩ := hd
    have hak : a ≠ k := h (a, b) (List.mem_cons_self _ _)
    simp only [rmapSet]
    rw [if_neg (by simp [hak]), ih (fun pr hpr => h pr (List.mem_cons_of_mem _ hpr))]
    rfl

lemma processFile_registry_mem (a : Auditor) (f : String × Option XmlElem)
    (pr : String × List String) (h : pr ∈ (processFile a f).project_vsts) :
    pr ∈ a.project_vsts ∨ pr.1 = f.1 := by
  rw [processFile_registry] at h
  by_cases he : parseVsts f.2 = []
  · rw [if_pos he] at h
    exact Or.inl h
  · rw [if_neg he] at h
    rcases rmapSet_mem _ _ _ _ h with hm | hkv
    · exact Or.inl hm
    · right
      rw [hkv]

lemma fold_usage_matches_registry (files : List (String × Option XmlElem)) :
    ∀ a : Auditor,
      (files.map Prod.fst).Nodup →
      (∀ pr ∈ a.project_vsts, pr.1 ∉ files.map Prod.fst) →
      (∀ q : String, cmapGet a.vst_usage q =
        (a.project_vsts.filter (fun pr => pr.2.contains q)).length) →
      ∀ p : String, cmapGet (files.foldl processFile a).vst_usage p =
        ((files.foldl processFile a).project_vsts.filter
          (fun pr => pr.2.contains p)).length := by
  induction files with
  | nil => intro a _ _ hbase p; exact hbase p
  | cons f t ih =>
    intro a hnd hfresh hbase p
    rw [List.foldl_cons]
    rw [List.map_cons] at hnd
    have hnd' : (t.map Prod.fst).Nodup := hnd.of_cons
    have hf1 : f.1 ∉ t.map Prod.fst := (List.nodup_cons.mp hnd).1
    refine ih (processFile a f) hnd' ?_ ?_ p
    · intro pr hpr
      rcases processFile_registry_mem a f pr hpr with hm | he
      · have hn := hfresh pr hm
        rw [List.map_cons] at hn
        intro hc
        exact hn (List.mem_cons_of_mem _ hc)
      · rw [he]
        exact hf1
    · intro q
      rw [processFile_usage, processFile_registry]
      by_cases he : parseVsts f.2 = []
      · rw [if_pos he, if_pos he]
        exact hbase q
      · rw [if_neg he, if_neg he]
        have hfreshk : ∀ pr ∈ a.project_vsts, pr.1 ≠ f.1 := by
          intro pr hpr
          have hn := hfresh pr hpr
          rw [List.map_cons] at hn
          intro hc
          exact hn (by rw [hc]; exact List.mem_cons_self _ _)
        rw [rmapSet_fresh _ _ _ hfreshk, cmapGet_foldl_bump, hbase q]
        rw [List.filter_append, List.length_append]
        congr 1
        by_cases hq : q ∈ parseVsts f.2
        · have hc : (parseVsts f.2).contains q = true := List.elem_eq_true_of_mem hq
          rw [List.count_eq_one_of_mem (parseVsts_nodup f.2) hq]
          simp [List.filter_cons, hc, hq]
        · have hc : (parseVsts f.2).contains q = false := by
            rw [Bool.eq_false_iff]
            intro hcc
            exact hq (List.mem_of_elem_eq_true hcc)
          rw [List.count_eq_zero.mpr hq]
          simp [List.filter_cons, hc, hq]

/-- C10: after `scan_directory` completes, the Usage Counter and the
Project Registry are mutually consistent: for every plugin reference the
counter value equals the number of registry entries whose plugin list
contains it, and a reference is counted exactly when it occurs in some
registry list (file paths, as produced by the directory walk, are
distinct). -/
theorem usage_registry_consistent (a : Auditor) (files : List (String × Option XmlElem))
    (hnd : (files.map Prod.fst).Nodup) (p : String) :
    cmapGet (scan_directory a files).vst_usage p =
      ((scan_directory a files).project_vsts.filter (fun pr => pr.2.contains p)).length ∧
    (cmapGet (scan_directory a files).vst_usage p ≠ 0 ↔
      ∃ pr ∈ (scan_directory a files).project_vsts, p ∈ pr.2) := by
  have h1 : cmapGet (scan_directory a files).vst_usage p =
      ((scan_directory a files).project_vsts.filter (fun pr => pr.2.contains p)).length := by
    rw [scan_eq_fold]
    refine fold_usage_matches_registry files _ hnd ?_ ?_ p
    · intro pr hpr
      cases hpr
    · intro q
      rfl
  refine ⟨h1, ?_⟩
  rw [h1]
  constructor
  · intro hne
    have hnil : (scan_directory a files).project_vsts.filter
        (fun pr => pr.2.contains p) ≠ [] := by
      intro hn
      rw [hn] at hne
      exact hne rfl
    rcases List.exists_mem_of_ne_nil _ hnil with ⟨pr, hpr⟩
    have hmem := List.mem_filter.mp hpr
    exact ⟨pr, hmem.1, List.mem_of_elem_eq_true hmem.2⟩
  · rintro ⟨pr, hpr, hp⟩
    intro hzero
    rw [List.length_eq_zero] at hzero
    exact (List.filter_eq_nil_iff.mp hzero) pr hpr (List.elem_eq_true_of_mem hp)

/-- Instantiation of `usage_registry_consistent` on a concrete scan. -/
theorem usage_registry_consistent_instance :
    (alsFiles1.map Prod.fst).Nodup ∧
    cmapGet (scan_directory auditor0 alsFiles1).vst_usage "Plugin.dll" =
      ((scan_directory auditor0 alsFiles1).project_vsts.filter
        (fun pr => pr.2.contains "Plugin.dll")).length :=
  ⟨by decide, (usage_registry_consistent auditor0 alsFiles1 (by decide) "Plugin.dll").1⟩
